import Mathlib

/- A shallow embedding of the SwingSet virtual object manager
   (packages/SwingSet/src/kernel/virtualObjectManager.js).

   User-level values and the codec's ground (serialized) form are opaque to the
   manager, so both are modelled as `String`.  The external collaborators
   (the `syscall` vatstore, the marshaller `m`, `parseVatSlot`, the JSON
   builtins) are modelled as explicit function parameters; the facts the
   theorems need about them (roundtrips, parse failures) appear as hypotheses
   and are discharged on concrete instances in the witnesses. -/

deriving instance DecidableEq for Except

/-- Raw state of a virtual object: its string-named own properties, plus the
`initializationInProgress` mark.  In the source the mark is a symbol-keyed,
non-enumerable property of the data object, so it is invisible to
`Object.getOwnPropertyNames`; here it is a separate field next to the
string-keyed properties. -/
structure RawData where
  initializing : Bool
  props : List (String × String)
deriving Repr, DecidableEq

/-- An inner self as it sits in the cache's LRU list.  A listed entry always
carries live raw data: `rawData` is nulled only on eviction, at which point
the entry also leaves the list and the live table. -/
structure InnerEntry where
  instanceKey : String
  rawData : RawData
deriving Repr, DecidableEq

/-- An inner self as seen from a representative's closures: `rawData = none`
is the detached state left behind by eviction. -/
structure InnerSelf where
  instanceKey : String
  rawData : Option RawData
deriving Repr, DecidableEq

/-- State of the cache made by `makeCache(size, fetch, store)`, generic over
the backing storage `σ` reached through the `fetch`/`store` hooks.
`entries` is the doubly-linked LRU list of the source, most recently used
first (`lruHead` is the head of the list, `lruTail` its last element); the
`liveTable` is exactly the set of keys of `entries`, since the source inserts
into and deletes from the map and the list in lockstep. -/
structure CacheSt (σ : Type) where
  size : Nat
  entries : List InnerEntry
  backing : σ
deriving Repr, DecidableEq

/-- Message of the cache-overflow error thrown by `makeRoom`. -/
def overflowMsg : String := "cache overflowed with objects being initialized"

/-- Association-list lookup, first match wins (JS `Map.get` with the newest
binding shadowing, for the prepend-on-set representation used below). -/
def alookup {κ β : Type} [BEq κ] (k : κ) : List (κ × β) → Option β
  | [] => none
  | (k', v) :: rest => if k' == k then some v else alookup k rest

/-- JS property assignment on a property-ordered record: an existing property
is updated in place, a fresh one is appended at the end. -/
def updateAssoc (k v : String) : List (String × String) → List (String × String)
  | [] => [(k, v)]
  | (k', v') :: rest =>
    if k' == k then (k, v) :: rest else (k', v') :: updateAssoc k v rest

/-- The inner loop of `makeRoom`: while the LRU tail is marked initializing,
`cache.refresh(lruTail)` unlinks the tail and relinks it at the head, i.e.
rotates the list by one.  The source counts `refreshCount` upward from 1 and
throws once `refreshCount > size`; here `remaining = size + 1 - refreshCount`
counts the refreshes still allowed downward, which is the same loop: the
throw fires exactly when the tail is still initializing and `remaining = 0`. -/
def evictScan : Nat → List InnerEntry → Except String Unit × List InnerEntry
  | remaining, entries =>
    match entries.getLast? with
    | none => (.ok (), entries)
    | some tail =>
      if tail.rawData.initializing then
        match remaining with
        | 0 => (.error overflowMsg, entries)
        | r + 1 => evictScan r (tail :: entries.dropLast)
      else (.ok (), entries)

/-- One pass of the `makeRoom` while-loop, with explicit iteration fuel.
Each iteration: if the live table is over budget and a tail exists, rotate
initializing tails out of the way (`evictScan`, starting from
`refreshCount = 1`, i.e. `remaining = size`), then evict the resulting tail:
delete it from the live table, `store(instanceKey, rawData)`, null its raw
data and unlink it.  `makeRoom` passes `entries.length` as fuel, which always
suffices: every iteration that continues removes one entry, so the zero-fuel
branch is reached only with an empty list, where the source loop would also
stop (no `lruTail`). -/
def makeRoomGo {σ : Type} (storeF : String → RawData → σ → σ) :
    Nat → CacheSt σ → Except String Unit × CacheSt σ
  | 0, st => (.ok (), st)
  | fuel + 1, st =>
    if st.size < st.entries.length then
      match evictScan st.size st.entries with
      | (.error e, es) => (.error e, { st with entries := es })
      | (.ok _, es) =>
        match es.getLast? with
        | none => (.ok (), { st with entries := es })
        | some tail =>
          makeRoomGo storeF fuel
            { st with
              entries := es.dropLast
              backing := storeF tail.instanceKey tail.rawData st.backing }
    else (.ok (), st)

/-- The cache's `makeRoom()`. -/
def makeRoom {σ : Type} (storeF : String → RawData → σ → σ) (st : CacheSt σ) :
    Except String Unit × CacheSt σ :=
  makeRoomGo storeF st.entries.length st

/-- The cache's `flush()`: temporarily set `size = 0`, run `makeRoom`, restore
the saved size.  Note the source restores `size` only after `makeRoom`
returns, so if `makeRoom` throws, the cache is left with `size = 0`; the
model reproduces that by returning the throwing state unrepaired. -/
def cacheFlush {σ : Type} (storeF : String → RawData → σ → σ) (st : CacheSt σ) :
    Except String Unit × CacheSt σ :=
  let saveSize := st.size
  match makeRoom storeF { st with size := 0 } with
  | (.error e, st') => (.error e, st')
  | (.ok _, st') => (.ok (), { st' with size := saveSize })

/-- The cache's `remember(innerObj)`: if the key is already in the live table
return, otherwise `makeRoom()` first and then insert at the head of the LRU
list and into the live table. -/
def cacheRemember {σ : Type} (storeF : String → RawData → σ → σ)
    (st : CacheSt σ) (inner : InnerEntry) : Except String Unit × CacheSt σ :=
  if st.entries.any (fun e => e.instanceKey == inner.instanceKey) then (.ok (), st)
  else
    match makeRoom storeF st with
    | (.error e, st') => (.error e, st')
    | (.ok _, st') => (.ok (), { st' with entries := inner :: st'.entries })

/-- Helper for `cacheRefresh`: unlink the first entry bearing the given key,
returning it and the list with it removed (order otherwise preserved). -/
def extractKey (k : String) : List InnerEntry → Option (InnerEntry × List InnerEntry)
  | [] => none
  | e :: rest =>
    if e.instanceKey == k then some (e, rest)
    else
      match extractKey k rest with
      | some (x, rest') => some (x, e :: rest')
      | none => none

/-- The cache's `refresh(innerObj)`, identified by instance key: if the entry
is not already the head, unlink it from its position and relink it at the
head.  A no-op when the entry is already the head (or, defensively, absent). -/
def cacheRefresh (k : String) (entries : List InnerEntry) : List InnerEntry :=
  match entries with
  | [] => entries
  | e :: _ =>
    if e.instanceKey == k then entries
    else
      match extractKey k entries with
      | some (x, rest) => x :: rest
      | none => entries

/-- The cache's `lookup(instanceKey)`: on a live-table hit, refresh the entry
and return it; on a miss, synthesize `{ instanceKey, rawData: fetch(key) }`
and `remember` it.  A `fetch` failure (for instance `JSON.parse` on an absent
vatstore value) propagates. -/
def cacheLookup {σ : Type} (fetchF : String → σ → Except String RawData)
    (storeF : String → RawData → σ → σ) (st : CacheSt σ) (k : String) :
    Except String InnerEntry × CacheSt σ :=
  match st.entries.find? (fun e => e.instanceKey == k) with
  | some inner => (.ok inner, { st with entries := cacheRefresh k st.entries })
  | none =>
    match fetchF k st.backing with
    | .error e => (.error e, st)
    | .ok rd =>
      let inner : InnerEntry := { instanceKey := k, rawData := rd }
      match cacheRemember storeF st inner with
      | (.error e, st') => (.error e, st')
      | (.ok _, st') => (.ok inner, st')

/-- Chronological log of `store(instanceKey, rawData)` calls, used as the
backing `σ` for the cache-level claims (the test-level instantiation of the
`store` hook). -/
abbrev StoreLog := List (String × RawData)

/-- The logging `store` hook: append the store event at the end. -/
def logStore (k : String) (rd : RawData) (l : StoreLog) : StoreLog :=
  l ++ [(k, rd)]

/-- The cache operations a client can issue (the methods of the object
returned by `makeCache`; `makeRoom` is reached through the others). -/
inductive CacheOp where
  | lookupOp (k : String)
  | rememberOp (inner : InnerEntry)
  | refreshOp (k : String)
  | flushOp
deriving Repr, DecidableEq

/-- Run one cache operation. -/
def runOp {σ : Type} (fetchF : String → σ → Except String RawData)
    (storeF : String → RawData → σ → σ) (st : CacheSt σ) :
    CacheOp → Except String Unit × CacheSt σ
  | .lookupOp k =>
    match cacheLookup fetchF storeF st k with
    | (.error e, st') => (.error e, st')
    | (.ok _, st') => (.ok (), st')
  | .rememberOp inner => cacheRemember storeF st inner
  | .refreshOp k => (.ok (), { st with entries := cacheRefresh k st.entries })
  | .flushOp => cacheFlush storeF st

/-- Run a sequence of cache operations, stopping at the first thrown error. -/
def runOps {σ : Type} (fetchF : String → σ → Except String RawData)
    (storeF : String → RawData → σ → σ) :
    CacheSt σ → List CacheOp → Except String Unit × CacheSt σ
  | st, [] => (.ok (), st)
  | st, op :: rest =>
    match runOp fetchF storeF st op with
    | (.error e, st') => (.error e, st')
    | (.ok _, st') => runOps fetchF storeF st' rest

/-- A cache as freshly made by `makeCache(size, fetch, store)`: empty LRU
list and live table. -/
def initCache {σ : Type} (size : Nat) (backing : σ) : CacheSt σ :=
  { size := size, entries := [], backing := backing }

/-- The `ensureState` closure of `makeRepresentative`: if the captured inner
self is detached (`rawData` nulled by an eviction), rebind it to
`cache.lookup(instanceKey)`.  A resident inner self is always the live-table
entry for its key (only eviction detaches, and it removes the entry from the
table in the same step), so the state is passed through unchanged in that
case. -/
def ensureState {σ : Type} (fetchF : String → σ → Except String RawData)
    (storeF : String → RawData → σ → σ) (inner : InnerSelf) (st : CacheSt σ) :
    Except String InnerEntry × CacheSt σ :=
  match inner.rawData with
  | some rd => (.ok { instanceKey := inner.instanceKey, rawData := rd }, st)
  | none =>
    match cacheLookup fetchF storeF st inner.instanceKey with
    | (.error e, st') => (.error e, st')
    | (.ok entry, st') => (.ok entry, st')

/-- The property getter installed by `wrapData`: `ensureState`, then return
`m.unserialize(innerSelf.rawData[prop])` (mapped over the property lookup,
since reading an absent property yields no value). -/
def wrapDataGet {σ : Type} (unserialize : String → String)
    (fetchF : String → σ → Except String RawData)
    (storeF : String → RawData → σ → σ)
    (inner : InnerSelf) (st : CacheSt σ) (prop : String) :
    Except String (Option String) × CacheSt σ :=
  match ensureState fetchF storeF inner st with
  | (.error e, st') => (.error e, st')
  | (.ok entry, st') =>
    (.ok ((alookup prop entry.rawData.props).map unserialize), st')

/-- The property setter installed by `wrapData`: compute
`m.serialize(value)` first — a serialization failure is thrown before any
state is touched — then `ensureState`, then write the serialized value into
`innerSelf.rawData[prop]`.  The write mutates the raw data shared with the
live-table entry, so the cache entry with this key is updated as well. -/
def wrapDataSet {σ : Type} (serialize : String → Except String String)
    (fetchF : String → σ → Except String RawData)
    (storeF : String → RawData → σ → σ)
    (inner : InnerSelf) (st : CacheSt σ) (prop value : String) :
    Except String InnerSelf × CacheSt σ :=
  match serialize value with
  | .error e => (.error e, st)
  | .ok serializedValue =>
    match ensureState fetchF storeF inner st with
    | (.error e, st') => (.error e, st')
    | (.ok entry, st') =>
      let rd' : RawData :=
        { entry.rawData with
          props := updateAssoc prop serializedValue entry.rawData.props }
      (.ok { instanceKey := entry.instanceKey, rawData := some rd' },
       { st' with
         entries := st'.entries.map
           (fun e => if e.instanceKey == entry.instanceKey then { e with rawData := rd' } else e) })

/-- A representative as far as its structural life cycle is concerned.  The
user-supplied `instanceMaker` returns an arbitrary object; the claims only
observe whether it still carries an `initialize` method and whether it has
been hardened (frozen), so the model reduces a representative to those two
flags. -/
structure Representative where
  hasInitMethod : Bool
  frozen : Bool
deriving Repr, DecidableEq

/-- The factory's `makeRepresentative(innerSelf, initializing)`.  `im` stands
for the representative the user's `instanceMaker` returns.  In initializing
mode the source stashes `wrapData` on the inner self, calls the instance
maker on the raw initial data and returns its result unchanged — in
particular it does not `harden` it.  In reanimation mode it calls `wrapData`
on a fresh `activeData` (whose initializing mark is never set, so the
`wrapData` assertion passes), calls the instance maker, deletes the
`initialize` method and hardens the representative.  Both modes then call
`cache.remember(innerSelf)` (which can throw `CacheOverflow`) and record the
representative in the external slot table (not modelled: the slot table is an
external collaborator and no claim observes it). -/
def makeRepresentative {σ : Type} (storeF : String → RawData → σ → σ)
    (im : Representative) (inner : InnerEntry) (initMode : Bool) (st : CacheSt σ) :
    Except String Representative × CacheSt σ :=
  if initMode then
    let representative := im
    match cacheRemember storeF st inner with
    | (.error e, st') => (.error e, st')
    | (.ok _, st') => (.ok representative, st')
  else
    let representative : Representative := { im with hasInitMethod := false, frozen := true }
    match cacheRemember storeF st inner with
    | (.error e, st') => (.error e, st')
    | (.ok _, st') => (.ok representative, st')

/-- The serialization loop at the end of `makeNewInstance`: serialize every
string-named own property of the initial data in order; on the first failure
the source logs `state property <prop> is not serializable` to the console
and rethrows the codec's error, so the failing property name and the original
error are both returned. -/
def serializeProps (serialize : String → Except String String) :
    List (String × String) → Except (String × String) (List (String × String))
  | [] => .ok []
  | (prop, v) :: rest =>
    match serialize v with
    | .error e => .error (prop, e)
    | .ok g =>
      match serializeProps serialize rest with
      | .error pe => .error pe
      | .ok gs => .ok ((prop, g) :: gs)

/-- Instance keys are `o+<kindID>/<instanceID>`. -/
def mkInstanceKey (kindID : String) (instanceID : Nat) : String :=
  "o+" ++ kindID ++ "/" ++ toString instanceID

/-- The maker returned by `makeKind`, `makeNewInstance(...args)`.  It creates
`initialData` bearing the initializing mark, builds the inner self and the
representative in initializing mode (which `remember`s the inner self),
extracts and deletes `initialize` from the representative and — when present
— runs it; `initProps` stands for the string-named own properties the user's
`initialize` left on `initialData` (with no `initialize` method nothing runs
and the data stays empty).  It then clears the initializing mark, serializes
every own property (failure: console message naming the property, original
error rethrown, and the raw-data assignment below never happens), assigns the
serialized record to `innerSelf.rawData` (mutating the entry shared with the
cache) and calls the stashed `wrapData(initialData)`, which installs
accessors on the initial data and hardens it — but never hardens the
representative.  Returns the representative, the cache state, and the console
log.  (In the failure path the cache entry still holds the raw initial data;
no operation between the mutations of that shared object runs in the source,
so only the final assignment is reflected in the model.) -/
def makeNewInstance {σ : Type} (serialize : String → Except String String)
    (storeF : String → RawData → σ → σ) (im : Representative)
    (initProps : List (String × String)) (kindID : String) (instanceID : Nat)
    (st : CacheSt σ) :
    Except String Representative × CacheSt σ × List String :=
  let instanceKey := mkInstanceKey kindID instanceID
  let initialData : RawData := { initializing := true, props := [] }
  let inner : InnerEntry := { instanceKey := instanceKey, rawData := initialData }
  match makeRepresentative storeF im inner true st with
  | (.error e, st') => (.error e, st', [])
  | (.ok rep0, st') =>
    let rep1 : Representative := { rep0 with hasInitMethod := false }
    let props := if rep0.hasInitMethod then initProps else []
    match serializeProps serialize props with
    | .error pe =>
      (.error pe.2, st', ["state property " ++ pe.1 ++ " is not serializable"])
    | .ok ground =>
      let rawData : RawData := { initializing := false, props := ground }
      (.ok rep1,
       { st' with
         entries := st'.entries.map
           (fun e => if e.instanceKey == instanceKey then { e with rawData := rawData } else e) },
       [])

/-- Result of `parseVatSlot`. -/
structure SlotInfo where
  id : Nat
  type : String
  virtual : Bool

/-- The manager's `makeVirtualObjectRepresentative(vref)`: parse the vref,
form the kind ID from the parsed `id`, and apply the registered reanimator,
or throw `unknown kind <id>` when the kind table has no entry.  `α` is the
reanimator's result type (for the stateful claims it is instantiated with a
state-passing computation). -/
def makeVirtualObjectRepresentative {α : Type} (parse : String → SlotInfo)
    (kindTable : List (String × (String → α))) (vref : String) : Except String α :=
  let kindID := toString (parse vref).id
  match alookup kindID kindTable with
  | some reanimator => .ok (reanimator vref)
  | none => .error ("unknown kind " ++ kindID)

/-- The vatstore, keyed by opaque strings.  `vatstoreSet(key, undefined)` —
which is how the weak store deletes — binds the key to `none`; reading such a
binding behaves like reading an absent key (the stored `undefined` is falsy),
which is the tombstone behaviour the spec assigns to the external store. -/
def vatstoreGet (vat : List (String × Option String)) (k : String) : Option String :=
  (alookup k vat).join

/-- Bind a vatstore key (newest binding shadows older ones). -/
def vatstoreSet (vat : List (String × Option String)) (k : String) (v : Option String) :
    List (String × Option String) :=
  (k, v) :: vat

/-- JS truthiness of a vatstore read: absent and `undefined` are falsy, and so
is the empty string. -/
def jsTruthy (o : Option String) : Bool :=
  match o with
  | none => false
  | some s => if s == "" then false else true

/-- JSON.parse coerces its argument to a string; an absent vatstore value is
`undefined`, which coerces to the string `"undefined"` (and then fails to
parse). -/
def jsArgString (o : Option String) : String :=
  match o with
  | none => "undefined"
  | some s => s

/-- The manager's `fetch(instanceKey)`:
`JSON.parse(syscall.vatstoreGet(instanceKey))`, with `parseJson` standing for
the external `JSON.parse`. -/
def vomFetch (parseJson : String → Except String RawData)
    (k : String) (vat : List (String × Option String)) : Except String RawData :=
  parseJson (jsArgString (vatstoreGet vat k))

/-- The manager's `store(instanceKey, rawData)`:
`syscall.vatstoreSet(instanceKey, JSON.stringify(rawData))`, with
`stringifyRaw` standing for the external `JSON.stringify`. -/
def vomStore (stringifyRaw : RawData → String) (k : String) (rd : RawData)
    (vat : List (String × Option String)) : List (String × Option String) :=
  vatstoreSet vat k (some (stringifyRaw rd))

/-- The per-kind `reanimate(instanceKey)` registered in the kind table:
`makeRepresentative(cache.lookup(instanceKey), false)`. -/
def reanimate {σ : Type} (fetchF : String → σ → Except String RawData)
    (storeF : String → RawData → σ → σ) (im : Representative)
    (st : CacheSt σ) (instanceKey : String) :
    Except String Representative × CacheSt σ :=
  match cacheLookup fetchF storeF st instanceKey with
  | (.error e, st') => (.error e, st')
  | (.ok inner, st') => makeRepresentative storeF im inner false st'

/-- Error message of the weak store's `already registered` assertion: the
`details` template quotes the `keyName` and appends the offending key. -/
def alreadyRegisteredMsg (keyName : String) (key : Nat) : String :=
  "\"" ++ keyName ++ "\" already registered: " ++ toString key

/-- Error message of the weak store's `not found` assertion. -/
def notFoundMsg (keyName : String) (key : Nat) : String :=
  "\"" ++ keyName ++ "\" not found: " ++ toString key

/-- The collaborators a weak store closes over: the external slot table
(`valToSlotTable`, keys are opaque in-memory objects modelled as `Nat`), the
external `parseVatSlot`, the store's allocated `storeID` and its `keyName`. -/
structure WsCtx where
  valToSlot : Nat → Option String
  parse : String → SlotInfo
  storeID : Nat
  keyName : String

/-- State of one weak store: its in-memory `WeakMap` for non-virtual keys
(values are opaque, modelled as `String`), and the shared vatstore. -/
structure WeakStoreSt where
  backingMap : List (Nat × String)
  vat : List (String × Option String)
deriving Repr, DecidableEq

/-- JS truthiness of a slot-table read (`if (!instanceKey)`): absent and the
empty string are falsy. -/
def optTruthy (o : Option String) : Option String :=
  match o with
  | none => none
  | some s => if s == "" then none else some s

/-- The weak store's `virtualObjectKey(key)`: if the slot table knows the key
and the parsed slot is a virtual object, qualify the instance key with the
store ID (`ws<storeID>.<instanceKey>`); otherwise the key is non-virtual. -/
def virtualObjectKey (c : WsCtx) (key : Nat) : Option String :=
  match optTruthy (c.valToSlot key) with
  | none => none
  | some instanceKey =>
    let p := c.parse instanceKey
    if p.type == "object" && p.virtual then
      some ("ws" ++ toString c.storeID ++ "." ++ instanceKey)
    else none

/-- The weak store's `has(key)`: vatstore truthiness for a virtual key,
`WeakMap.has` otherwise. -/
def wsHas (c : WsCtx) (st : WeakStoreSt) (key : Nat) : Bool :=
  match virtualObjectKey c key with
  | some vkey => jsTruthy (vatstoreGet st.vat vkey)
  | none => (alookup key st.backingMap).isSome

/-- The weak store's `init(key, value)`: assert the key is not yet bound,
then bind it — through `vatstoreSet(vkey, JSON.stringify(m.serialize(value)))`
for a virtual key, through the in-memory weak map otherwise.  `ser` stands
for `m.serialize` and `jstr` for `JSON.stringify`. -/
def wsInit (c : WsCtx) (ser : String → String) (jstr : String → String)
    (st : WeakStoreSt) (key : Nat) (value : String) : Except String WeakStoreSt :=
  match virtualObjectKey c key with
  | some vkey =>
    if jsTruthy (vatstoreGet st.vat vkey) then
      .error (alreadyRegisteredMsg c.keyName key)
    else .ok { st with vat := vatstoreSet st.vat vkey (some (jstr (ser value))) }
  | none =>
    if (alookup key st.backingMap).isSome then
      .error (alreadyRegisteredMsg c.keyName key)
    else .ok { st with backingMap := (key, value) :: st.backingMap }

/-- The weak store's `get(key)`: assert the key is bound, then read it back —
`m.unserialize(JSON.parse(rawValue))` for a virtual key.  `unser` stands for
`m.unserialize` and `jparse` for `JSON.parse` (total here: the store only
parses strings it has itself stringified). -/
def wsGet (c : WsCtx) (unser : String → String) (jparse : String → String)
    (st : WeakStoreSt) (key : Nat) : Except String String :=
  match virtualObjectKey c key with
  | some vkey =>
    match vatstoreGet st.vat vkey with
    | none => .error (notFoundMsg c.keyName key)
    | some rawValue =>
      if rawValue == "" then .error (notFoundMsg c.keyName key)
      else .ok (unser (jparse rawValue))
  | none =>
    match alookup key st.backingMap with
    | some v => .ok v
    | none => .error (notFoundMsg c.keyName key)

/-- The weak store's `set(key, value)`: assert the key is bound, then
overwrite its binding. -/
def wsSet (c : WsCtx) (ser : String → String) (jstr : String → String)
    (st : WeakStoreSt) (key : Nat) (value : String) : Except String WeakStoreSt :=
  match virtualObjectKey c key with
  | some vkey =>
    if jsTruthy (vatstoreGet st.vat vkey) then
      .ok { st with vat := vatstoreSet st.vat vkey (some (jstr (ser value))) }
    else .error (notFoundMsg c.keyName key)
  | none =>
    if (alookup key st.backingMap).isSome then
      .ok { st with backingMap := (key, value) :: st.backingMap }
    else .error (notFoundMsg c.keyName key)

/-- The weak store's `delete(key)`: assert the key is bound, then delete it.
For a virtual key the source calls `syscall.vatstoreSet(vkey, undefined)`, so
the vatstore binding becomes the falsy tombstone rather than disappearing;
for a non-virtual key the weak-map entry is removed. -/
def wsDelete (c : WsCtx) (st : WeakStoreSt) (key : Nat) : Except String WeakStoreSt :=
  match virtualObjectKey c key with
  | some vkey =>
    if jsTruthy (vatstoreGet st.vat vkey) then
      .ok { st with vat := vatstoreSet st.vat vkey none }
    else .error (notFoundMsg c.keyName key)
  | none =>
    if (alookup key st.backingMap).isSome then
      .ok { st with backingMap := st.backingMap.filter (fun p => !(p.1 == key)) }
    else .error (notFoundMsg c.keyName key)


/-- Decomposition of a list around its last element. -/
theorem getLast?_decomp {α : Type} {es : List α} {t : α} (h : es.getLast? = some t) :
    es = es.dropLast ++ [t] :=
  (List.dropLast_append_getLast? t h).symm

/-- A list with a last element is nonempty-lengthed. -/
theorem getLast?_length_pos {α : Type} {es : List α} {t : α} (h : es.getLast? = some t) :
    0 < es.length := by
  rw [getLast?_decomp h]
  simp

/-- The inner scan of `makeRoom` only rotates the list, so it preserves its
length. -/
theorem evictScan_length (r : Nat) (es : List InnerEntry) :
    ((evictScan r es).2).length = es.length := by
  induction r generalizing es with
  | zero =>
    unfold evictScan
    cases h : es.getLast? with
    | none => simp
    | some tail =>
      by_cases hi : tail.rawData.initializing <;> simp [hi]
  | succ r ih =>
    unfold evictScan
    cases h : es.getLast? with
    | none => simp
    | some tail =>
      by_cases hi : tail.rawData.initializing
      · simp only [hi, if_true]
        rw [ih]
        have := getLast?_length_pos h
        simp only [List.length_cons, List.length_dropLast]
        omega
      · simp [hi]

/-- The inner scan of `makeRoom` only rotates the list, so membership is
preserved in both directions. -/
theorem evictScan_mem (r : Nat) (es : List InnerEntry) (a : InnerEntry) :
    a ∈ (evictScan r es).2 ↔ a ∈ es := by
  induction r generalizing es with
  | zero =>
    unfold evictScan
    cases h : es.getLast? with
    | none => simp
    | some tail =>
      by_cases hi : tail.rawData.initializing <;> simp [hi]
  | succ r ih =>
    unfold evictScan
    cases h : es.getLast? with
    | none => simp
    | some tail =>
      by_cases hi : tail.rawData.initializing
      · simp only [hi, if_true]
        rw [ih]
        constructor
        · intro hmem
          rcases List.mem_cons.mp hmem with heq | hdrop
          · rw [getLast?_decomp h]
            exact List.mem_append.mpr (Or.inr (by simp [heq]))
          · rw [getLast?_decomp h]
            exact List.mem_append.mpr (Or.inl hdrop)
        · intro hmem
          rw [getLast?_decomp h] at hmem
          rcases List.mem_append.mp hmem with hdrop | hlast
          · exact List.mem_cons.mpr (Or.inr hdrop)
          · exact List.mem_cons.mpr (Or.inl (by simpa using hlast))
      · simp [hi]

/-- When the inner scan returns normally and leaves a tail, that tail is not
marked initializing (it is about to be evicted and stored). -/
theorem evictScan_ok_getLast (r : Nat) (es : List InnerEntry) (es' : List InnerEntry)
    (u : Unit) (h : evictScan r es = (.ok u, es')) (t : InnerEntry)
    (ht : es'.getLast? = some t) : t.rawData.initializing = false := by
  induction r generalizing es with
  | zero =>
    unfold evictScan at h
    cases hl : es.getLast? with
    | none =>
      rw [hl] at h
      cases h
      rw [hl] at ht
      cases ht
    | some tail =>
      rw [hl] at h
      by_cases hi : tail.rawData.initializing
      · simp [hi] at h
      · simp only [hi, if_false] at h
        cases h
        rw [hl] at ht
        cases ht
        simpa using hi
  | succ r ih =>
    unfold evictScan at h
    cases hl : es.getLast? with
    | none =>
      rw [hl] at h
      cases h
      rw [hl] at ht
      cases ht
    | some tail =>
      rw [hl] at h
      by_cases hi : tail.rawData.initializing
      · simp only [hi, if_true] at h
        exact ih _ h
      · simp only [hi, if_false] at h
        cases h
        rw [hl] at ht
        cases ht
        simpa using hi

/-- If every entry is marked initializing and the list is nonempty, the inner
scan runs out of allowed refreshes and throws the overflow error. -/
theorem evictScan_allinit_error (r : Nat) (es : List InnerEntry)
    (hne : es ≠ []) (hall : ∀ e ∈ es, e.rawData.initializing = true) :
    (evictScan r es).1 = .error overflowMsg := by
  induction r generalizing es with
  | zero =>
    unfold evictScan
    cases hl : es.getLast? with
    | none =>
      exact absurd (List.getLast?_eq_none_iff.mp hl) hne
    | some tail =>
      have hmem : tail ∈ es := by
        rw [getLast?_decomp hl]
        simp
      simp [hall tail hmem]
  | succ r ih =>
    unfold evictScan
    cases hl : es.getLast? with
    | none =>
      exact absurd (List.getLast?_eq_none_iff.mp hl) hne
    | some tail =>
      have hmem : tail ∈ es := by
        rw [getLast?_decomp hl]
        simp
      simp only [hall tail hmem, if_true]
      apply ih
      · simp
      · intro e he
        rcases List.mem_cons.mp he with heq | hdrop
        · exact heq ▸ hall tail hmem
        · exact hall e (by rw [getLast?_decomp hl]; exact List.mem_append.mpr (Or.inl hdrop))

/-- If no entry is marked initializing, the inner scan is an immediate no-op
success. -/
theorem evictScan_noinit (r : Nat) (es : List InnerEntry)
    (hall : ∀ e ∈ es, e.rawData.initializing = false) :
    evictScan r es = (.ok (), es) := by
  unfold evictScan
  cases hl : es.getLast? with
  | none => rfl
  | some tail =>
    have hmem : tail ∈ es := by
      rw [getLast?_decomp hl]
      simp
    simp [hall tail hmem]

/-- The only error the inner scan can produce is the overflow error. -/
theorem evictScan_error_msg (r : Nat) (es : List InnerEntry) (e : String)
    (h : (evictScan r es).1 = .error e) : e = overflowMsg := by
  induction r generalizing es with
  | zero =>
    unfold evictScan at h
    cases hl : es.getLast? with
    | none => rw [hl] at h; cases h
    | some tail =>
      rw [hl] at h
      by_cases hi : tail.rawData.initializing
      · simp only [hi, if_true] at h
        cases h
        rfl
      · simp [hi] at h
  | succ r ih =>
    unfold evictScan at h
    cases hl : es.getLast? with
    | none => rw [hl] at h; cases h
    | some tail =>
      rw [hl] at h
      by_cases hi : tail.rawData.initializing
      · simp only [hi, if_true] at h
        exact ih _ h
      · simp [hi] at h


/-- `makeRoom` never changes the cache's size bound. -/
theorem makeRoomGo_size {σ : Type} (storeF : String → RawData → σ → σ)
    (fuel : Nat) (st : CacheSt σ) :
    ((makeRoomGo storeF fuel st).2).size = st.size := by
  induction fuel generalizing st with
  | zero => rfl
  | succ fuel ih =>
    unfold makeRoomGo
    by_cases hlt : st.size < st.entries.length
    · simp only [hlt, if_true]
      cases hscan : evictScan st.size st.entries with
      | mk r es =>
        cases r with
        | error e => dsimp only
        | ok u =>
          dsimp only
          cases hl : es.getLast? with
          | none => dsimp only
          | some tail =>
            dsimp only
            exact ih _
    · simp [hlt]

/-- When `makeRoom` returns normally with enough fuel, the live table is
within the size budget. -/
theorem makeRoomGo_ok_length {σ : Type} (storeF : String → RawData → σ → σ)
    (fuel : Nat) (st : CacheSt σ) (hfuel : st.entries.length ≤ fuel)
    (hok : (makeRoomGo storeF fuel st).1 = .ok ()) :
    ((makeRoomGo storeF fuel st).2).entries.length ≤ st.size := by
  induction fuel generalizing st with
  | zero =>
    have h0 : st.entries.length = 0 := Nat.le_zero.mp hfuel
    unfold makeRoomGo
    dsimp only
    omega
  | succ fuel ih =>
    unfold makeRoomGo at hok ⊢
    by_cases hlt : st.size < st.entries.length
    · simp only [hlt, if_true] at hok ⊢
      cases hscan : evictScan st.size st.entries with
      | mk r es =>
        rw [hscan] at hok
        cases r with
        | error e => dsimp only at hok; cases hok
        | ok u =>
          dsimp only at hok ⊢
          have hlen : es.length = st.entries.length := by
            have := evictScan_length st.size st.entries
            rw [hscan] at this
            exact this
          cases hl : es.getLast? with
          | none =>
            exfalso
            have hnil : es = [] := List.getLast?_eq_none_iff.mp hl
            rw [hnil] at hlen
            simp at hlen
            omega
          | some tail =>
            rw [hl] at hok
            dsimp only at hok ⊢
            have hfuel' : es.dropLast.length ≤ fuel := by
              have := List.length_dropLast es
              omega
            exact ih { st with
              entries := es.dropLast
              backing := storeF tail.instanceKey tail.rawData st.backing } hfuel' hok
    · simp only [hlt, if_false]
      omega

/-- `makeRoom` never evicts an entry whose raw data carries the initializing
mark: such entries survive every pass, normal or throwing. -/
theorem makeRoomGo_init_mem {σ : Type} (storeF : String → RawData → σ → σ)
    (fuel : Nat) (st : CacheSt σ) (e : InnerEntry)
    (hmem : e ∈ st.entries) (hinit : e.rawData.initializing = true) :
    e ∈ ((makeRoomGo storeF fuel st).2).entries := by
  induction fuel generalizing st with
  | zero => simpa [makeRoomGo] using hmem
  | succ fuel ih =>
    unfold makeRoomGo
    by_cases hlt : st.size < st.entries.length
    · simp only [hlt, if_true]
      cases hscan : evictScan st.size st.entries with
      | mk r es =>
        have hes : e ∈ es := by
          have := (evictScan_mem st.size st.entries e).mpr hmem
          rw [hscan] at this
          exact this
        cases r with
        | error err => dsimp only; exact hes
        | ok u =>
          dsimp only
          cases hl : es.getLast? with
          | none => dsimp only; exact hes
          | some tail =>
            dsimp only
            have htail : tail.rawData.initializing = false :=
              evictScan_ok_getLast st.size st.entries es u hscan tail hl
            have hne : e ≠ tail := by
              intro hEq
              rw [hEq, htail] at hinit
              cases hinit
            have hdrop : e ∈ es.dropLast := by
              rw [getLast?_decomp hl] at hes
              rcases List.mem_append.mp hes with h1 | h2
              · exact h1
              · exact absurd (by simpa using h2) hne
            exact ih _ hdrop
    · simpa [hlt] using hmem

/-- If the live table is over budget and every resident entry is marked
initializing, `makeRoom` throws the overflow error. -/
theorem makeRoom_allinit_error {σ : Type} (storeF : String → RawData → σ → σ)
    (st : CacheSt σ) (hover : st.size < st.entries.length)
    (hall : ∀ e ∈ st.entries, e.rawData.initializing = true) :
    (makeRoom storeF st).1 = .error overflowMsg := by
  unfold makeRoom
  cases hfuel : st.entries.length with
  | zero => omega
  | succ n =>
    unfold makeRoomGo
    simp only [hover, if_true]
    have hne : st.entries ≠ [] := by
      intro h
      rw [h] at hfuel
      cases hfuel
    have herr := evictScan_allinit_error st.size st.entries hne hall
    cases hscan : evictScan st.size st.entries with
    | mk r es =>
      rw [hscan] at herr
      cases r with
      | error e =>
        cases herr
        dsimp only
      | ok u => cases herr

/-- If no resident entry is marked initializing, `makeRoom` returns
normally. -/
theorem makeRoomGo_noinit_ok {σ : Type} (storeF : String → RawData → σ → σ)
    (fuel : Nat) (st : CacheSt σ)
    (hall : ∀ e ∈ st.entries, e.rawData.initializing = false) :
    (makeRoomGo storeF fuel st).1 = .ok () := by
  induction fuel generalizing st with
  | zero => rfl
  | succ fuel ih =>
    unfold makeRoomGo
    by_cases hlt : st.size < st.entries.length
    · simp only [hlt, if_true]
      rw [evictScan_noinit st.size st.entries hall]
      dsimp only
      cases hl : st.entries.getLast? with
      | none => dsimp only
      | some tail =>
        dsimp only
        apply ih
        intro e he
        exact hall e (by rw [getLast?_decomp hl]; exact List.mem_append.mpr (Or.inl he))
    · simp [hlt]

/-- The only error `makeRoom` can throw is the overflow error. -/
theorem makeRoomGo_error_msg {σ : Type} (storeF : String → RawData → σ → σ)
    (fuel : Nat) (st : CacheSt σ) (e : String)
    (h : (makeRoomGo storeF fuel st).1 = .error e) : e = overflowMsg := by
  induction fuel generalizing st with
  | zero => cases h
  | succ fuel ih =>
    unfold makeRoomGo at h
    by_cases hlt : st.size < st.entries.length
    · simp only [hlt, if_true] at h
      cases hscan : evictScan st.size st.entries with
      | mk r es =>
        rw [hscan] at h
        cases r with
        | error err =>
          dsimp only at h
          cases h
          have := evictScan_error_msg st.size st.entries e
          rw [hscan] at this
          exact this rfl
        | ok u =>
          dsimp only at h
          cases hl : es.getLast? with
          | none => rw [hl] at h; dsimp only at h; cases h
          | some tail =>
            rw [hl] at h
            dsimp only at h
            exact ih _ h
    · simp only [hlt, if_false] at h
      simp at h

/-- The store log only grows during `makeRoom`. -/
theorem makeRoomGo_backing_mono (fuel : Nat) (st : CacheSt StoreLog)
    (p : String × RawData) (hp : p ∈ st.backing) :
    p ∈ ((makeRoomGo logStore fuel st).2).backing := by
  induction fuel generalizing st with
  | zero => simpa [makeRoomGo] using hp
  | succ fuel ih =>
    unfold makeRoomGo
    by_cases hlt : st.size < st.entries.length
    · simp only [hlt, if_true]
      cases hscan : evictScan st.size st.entries with
      | mk r es =>
        cases r with
        | error e => dsimp only; exact hp
        | ok u =>
          dsimp only
          cases hl : es.getLast? with
          | none => dsimp only; exact hp
          | some tail =>
            dsimp only
            exact ih _ (by simp [logStore, hp])
    · simpa [hlt] using hp

/-- Every store event `makeRoom` emits concerns an entry that was resident
when the pass started, and its raw data never carries the initializing mark. -/
theorem makeRoomGo_backing_or (fuel : Nat) (st : CacheSt StoreLog)
    (p : String × RawData) (hp : p ∈ ((makeRoomGo logStore fuel st).2).backing) :
    p ∈ st.backing ∨
      (p.2.initializing = false ∧ p.1 ∈ st.entries.map InnerEntry.instanceKey) := by
  induction fuel generalizing st with
  | zero => exact Or.inl (by simpa [makeRoomGo] using hp)
  | succ fuel ih =>
    unfold makeRoomGo at hp
    by_cases hlt : st.size < st.entries.length
    · simp only [hlt, if_true] at hp
      cases hscan : evictScan st.size st.entries with
      | mk r es =>
        rw [hscan] at hp
        cases r with
        | error e => exact Or.inl (by simpa using hp)
        | ok u =>
          dsimp only at hp
          cases hl : es.getLast? with
          | none => rw [hl] at hp; exact Or.inl (by simpa using hp)
          | some tail =>
            rw [hl] at hp
            dsimp only at hp
            have htailmem : tail ∈ st.entries := by
              have : tail ∈ es := by
                rw [getLast?_decomp hl]
                simp
              have h2 := (evictScan_mem st.size st.entries tail).mp
              rw [hscan] at h2
              exact h2 this
            have htail : tail.rawData.initializing = false :=
              evictScan_ok_getLast st.size st.entries es u hscan tail hl
            rcases ih _ hp with hback | ⟨hni, hkey⟩
            · simp only [logStore] at hback
              rcases List.mem_append.mp hback with h1 | h2
              · exact Or.inl h1
              · have hpe : p = (tail.instanceKey, tail.rawData) := by simpa using h2
                refine Or.inr ⟨by rw [hpe]; exact htail, ?_⟩
                rw [hpe]
                exact List.mem_map.mpr ⟨tail, htailmem, rfl⟩
            · refine Or.inr ⟨hni, ?_⟩
              simp only [List.mem_map] at hkey ⊢
              rcases hkey with ⟨x, hx, hxk⟩
              have hxes : x ∈ es := by
                rw [getLast?_decomp hl]
                exact List.mem_append.mpr (Or.inl hx)
              have h2 := (evictScan_mem st.size st.entries x).mp
              rw [hscan] at h2
              exact ⟨x, h2 hxes, hxk⟩
    · simp only [hlt, if_false] at hp
      exact Or.inl hp

/-- Every entry resident at the start of a `makeRoom` pass either survives in
the live table or has been written to storage by the end of the pass. -/
theorem makeRoomGo_stored (fuel : Nat) (st : CacheSt StoreLog) (e : InnerEntry)
    (hmem : e ∈ st.entries) :
    e ∈ ((makeRoomGo logStore fuel st).2).entries ∨
      (e.instanceKey, e.rawData) ∈ ((makeRoomGo logStore fuel st).2).backing := by
  induction fuel generalizing st with
  | zero => exact Or.inl (by simpa [makeRoomGo] using hmem)
  | succ fuel ih =>
    unfold makeRoomGo
    by_cases hlt : st.size < st.entries.length
    · simp only [hlt, if_true]
      cases hscan : evictScan st.size st.entries with
      | mk r es =>
        have hes : e ∈ es := by
          have := (evictScan_mem st.size st.entries e).mpr hmem
          rw [hscan] at this
          exact this
        cases r with
        | error err => exact Or.inl (by simpa using hes)
        | ok u =>
          dsimp only
          cases hl : es.getLast? with
          | none => exact Or.inl (by simpa using hes)
          | some tail =>
            dsimp only
            rw [getLast?_decomp hl] at hes
            rcases List.mem_append.mp hes with hdrop | hlast
            · exact ih _ hdrop
            · have he : e = tail := by simpa using hlast
              right
              apply makeRoomGo_backing_mono
              simp [logStore, he]
    · exact Or.inl (by simpa [hlt] using hmem)


/-- Unlinking an entry and relinking it elsewhere preserves the list length. -/
theorem extractKey_length (k : String) (es : List InnerEntry) (x : InnerEntry)
    (rest : List InnerEntry) (h : extractKey k es = some (x, rest)) :
    rest.length + 1 = es.length := by
  induction es generalizing rest with
  | nil => cases h
  | cons e es ih =>
    unfold extractKey at h
    cases he : e.instanceKey == k with
    | true =>
      rw [he] at h
      simp only [if_true] at h
      cases h
      rfl
    | false =>
      rw [he] at h
      simp only [Bool.false_eq_true, if_false] at h
      cases hrec : extractKey k es with
      | none => rw [hrec] at h; cases h
      | some pr =>
        rw [hrec] at h
        cases pr with
        | mk x' rest' =>
          dsimp only at h
          cases h
          have := ih rest' hrec
          simp only [List.length_cons]
          omega

/-- `refresh` only moves an entry, so the list length is unchanged. -/
theorem cacheRefresh_length (k : String) (es : List InnerEntry) :
    (cacheRefresh k es).length = es.length := by
  unfold cacheRefresh
  cases es with
  | nil => rfl
  | cons e rest =>
    cases he : e.instanceKey == k with
    | true => simp [he]
    | false =>
      simp only [he, Bool.false_eq_true, if_false]
      cases hx : extractKey k (e :: rest) with
      | none => rfl
      | some pr =>
        cases pr with
        | mk x rest' =>
          have := extractKey_length k (e :: rest) x rest' hx
          simp only [List.length_cons] at this ⊢
          omega

/-- The first live-table match for a key is the entry `extractKey` unlinks. -/
theorem extractKey_of_find? (k : String) (es : List InnerEntry) (e : InnerEntry)
    (h : es.find? (fun x => x.instanceKey == k) = some e) :
    ∃ rest, extractKey k es = some (e, rest) := by
  induction es with
  | nil => cases h
  | cons a as ih =>
    rw [List.find?_cons] at h
    cases ha : a.instanceKey == k with
    | true =>
      rw [ha] at h
      simp only [if_true] at h
      cases h
      refine ⟨as, ?_⟩
      unfold extractKey
      rw [ha]
      simp
    | false =>
      rw [ha] at h
      simp only [Bool.false_eq_true, if_false] at h
      rcases ih h with ⟨rest, hrest⟩
      refine ⟨a :: rest, ?_⟩
      unfold extractKey
      rw [ha]
      simp only [Bool.false_eq_true, if_false, hrest]

/-- After `refresh`, the refreshed entry is the head of the LRU list. -/
theorem cacheRefresh_head (k : String) (es : List InnerEntry) (e : InnerEntry)
    (h : es.find? (fun x => x.instanceKey == k) = some e) :
    (cacheRefresh k es).head? = some e := by
  cases es with
  | nil => cases h
  | cons a as =>
    unfold cacheRefresh
    cases ha : a.instanceKey == k with
    | true =>
      rw [List.find?_cons, ha] at h
      simp only [if_true] at h
      cases h
      simp [ha]
    | false =>
      simp only [ha, Bool.false_eq_true, if_false]
      rcases extractKey_of_find? k (a :: as) e h with ⟨rest, hrest⟩
      rw [hrest]
      rfl

/-- A live-table hit bears the looked-up key. -/
theorem find?_key (k : String) (es : List InnerEntry) (e : InnerEntry)
    (h : es.find? (fun x => x.instanceKey == k) = some e) : e.instanceKey = k := by
  have := List.find?_some h
  exact eq_of_beq this

/-- `remember` keeps the live table within `size + 1` entries and leaves the
size bound unchanged: it makes room down to `size` before inserting. -/
theorem cacheRemember_inv {σ : Type} (storeF : String → RawData → σ → σ)
    (st : CacheSt σ) (inner : InnerEntry)
    (hpre : st.entries.length ≤ st.size + 1)
    (hok : (cacheRemember storeF st inner).1 = .ok ()) :
    ((cacheRemember storeF st inner).2).entries.length ≤ st.size + 1 ∧
      ((cacheRemember storeF st inner).2).size = st.size := by
  unfold cacheRemember at hok ⊢
  cases hin : st.entries.any (fun e => e.instanceKey == inner.instanceKey) with
  | true => exact ⟨hpre, rfl⟩
  | false =>
    rw [hin] at hok
    simp only [Bool.false_eq_true, if_false] at hok ⊢
    cases hmk : makeRoom storeF st with
    | mk r st1 =>
      rw [hmk] at hok
      cases r with
      | error e => cases hok
      | ok u =>
        dsimp only
        have hlen : st1.entries.length ≤ st.size := by
          have h1 := makeRoomGo_ok_length storeF st.entries.length st (Nat.le_refl _)
          unfold makeRoom at hmk
          rw [hmk] at h1
          exact h1 rfl
        have hsz : st1.size = st.size := by
          have h2 := makeRoomGo_size storeF st.entries.length st
          unfold makeRoom at hmk
          rw [hmk] at h2
          exact h2
        constructor
        · simp only [List.length_cons]
          omega
        · exact hsz

/-- A completed `lookup` keeps the live table within `size + 1` entries and
leaves the size bound unchanged. -/
theorem cacheLookup_inv {σ : Type} (fetchF : String → σ → Except String RawData)
    (storeF : String → RawData → σ → σ) (st : CacheSt σ) (k : String)
    (hpre : st.entries.length ≤ st.size + 1)
    (hok : ∀ e, (cacheLookup fetchF storeF st k).1 ≠ .error e) :
    ((cacheLookup fetchF storeF st k).2).entries.length ≤ st.size + 1 ∧
      ((cacheLookup fetchF storeF st k).2).size = st.size := by
  unfold cacheLookup at hok ⊢
  cases hf : st.entries.find? (fun e => e.instanceKey == k) with
  | some inner =>
    dsimp only
    rw [cacheRefresh_length]
    exact ⟨hpre, rfl⟩
  | none =>
    dsimp only
    rw [hf] at hok
    dsimp only at hok
    cases hfe : fetchF k st.backing with
    | error e => exact ⟨hpre, rfl⟩
    | ok rd =>
      dsimp only
      rw [hfe] at hok
      dsimp only at hok
      cases hrem : cacheRemember storeF st { instanceKey := k, rawData := rd } with
      | mk r st1 =>
        cases r with
        | error e =>
          exfalso
          apply hok e
          rw [hrem]
        | ok u =>
          dsimp only
          have h := cacheRemember_inv storeF st { instanceKey := k, rawData := rd } hpre
          rw [hrem] at h
          exact h rfl


/-- A completed `flush` empties the live table and restores the size bound. -/
theorem cacheFlush_ok {σ : Type} (storeF : String → RawData → σ → σ)
    (st : CacheSt σ) (hok : (cacheFlush storeF st).1 = .ok ()) :
    ((cacheFlush storeF st).2).entries = [] ∧ ((cacheFlush storeF st).2).size = st.size := by
  unfold cacheFlush at hok ⊢
  cases hmk : makeRoom storeF { st with size := 0 } with
  | mk r st1 =>
    cases r with
    | error e =>
      rw [hmk] at hok
      dsimp only at hok
      cases hok
    | ok u =>
      dsimp only
      have hlen : st1.entries.length ≤ 0 := by
        have h1 := makeRoomGo_ok_length storeF
          ({ st with size := 0 } : CacheSt σ).entries.length { st with size := 0 } (Nat.le_refl _)
        unfold makeRoom at hmk
        rw [hmk] at h1
        exact h1 rfl
      exact ⟨List.eq_nil_of_length_eq_zero (Nat.le_zero.mp hlen), rfl⟩

/-- Any completed cache operation keeps the live table within `size + 1`
entries and leaves the size bound unchanged. -/
theorem runOp_inv {σ : Type} (fetchF : String → σ → Except String RawData)
    (storeF : String → RawData → σ → σ) (st : CacheSt σ) (op : CacheOp)
    (hpre : st.entries.length ≤ st.size + 1)
    (hok : (runOp fetchF storeF st op).1 = .ok ()) :
    ((runOp fetchF storeF st op).2).entries.length ≤ ((runOp fetchF storeF st op).2).size + 1 ∧
      ((runOp fetchF storeF st op).2).size = st.size := by
  cases op with
  | lookupOp k =>
    unfold runOp at hok ⊢
    dsimp only at hok ⊢
    cases hcl : cacheLookup fetchF storeF st k with
    | mk r st1 =>
      cases r with
      | error e =>
        rw [hcl] at hok
        dsimp only at hok
        cases hok
      | ok inner =>
        have h := cacheLookup_inv fetchF storeF st k hpre
          (by intro e; rw [hcl]; simp)
        rw [hcl] at h
        dsimp only at h ⊢
        exact ⟨by rw [h.2]; exact h.1, h.2⟩
  | rememberOp inner =>
    unfold runOp at hok ⊢
    dsimp only at hok ⊢
    have h := cacheRemember_inv storeF st inner hpre hok
    exact ⟨by rw [h.2]; exact h.1, h.2⟩
  | refreshOp k =>
    unfold runOp
    dsimp only
    rw [cacheRefresh_length]
    exact ⟨hpre, rfl⟩
  | flushOp =>
    unfold runOp at hok ⊢
    dsimp only at hok ⊢
    have h := cacheFlush_ok storeF st hok
    constructor
    · rw [h.1]
      simp
    · exact h.2

/-- Any completed sequence of cache operations keeps the live table within
`size + 1` entries and leaves the size bound unchanged. -/
theorem runOps_inv {σ : Type} (fetchF : String → σ → Except String RawData)
    (storeF : String → RawData → σ → σ) (ops : List CacheOp) (st : CacheSt σ)
    (hpre : st.entries.length ≤ st.size + 1)
    (hok : (runOps fetchF storeF st ops).1 = .ok ()) :
    ((runOps fetchF storeF st ops).2).entries.length ≤
        ((runOps fetchF storeF st ops).2).size + 1 ∧
      ((runOps fetchF storeF st ops).2).size = st.size := by
  induction ops generalizing st with
  | nil => exact ⟨hpre, rfl⟩
  | cons op rest ih =>
    unfold runOps at hok ⊢
    cases hop : runOp fetchF storeF st op with
    | mk r st1 =>
      cases r with
      | error e =>
        rw [hop] at hok
        dsimp only at hok
        cases hok
      | ok u =>
        rw [hop] at hok
        dsimp only at hok ⊢
        have hstep := runOp_inv fetchF storeF st op hpre (by rw [hop])
        rw [hop] at hstep
        have h2 : st1.size = st.size := hstep.2
        have h1 : st1.entries.length ≤ st1.size + 1 := hstep.1
        have h := ih st1 h1 hok
        exact ⟨h.1, by rw [h.2]; exact h2⟩

/-- C1: during `makeRoom`, an inner self whose raw data carries the
initializing mark is never passed to `store` (every store event the pass
appends concerns non-initializing raw data), never evicted (it is still
resident afterwards, in normal and throwing passes alike); an initializing
tail is instead moved to the head of the LRU list by the refresh step; and
when the refresh budget (the cache size) is exhausted with every resident
entry still initializing, `makeRoom` throws
`cache overflowed with objects being initialized`. -/
theorem c1_makeRoom_protects_initializing (st : CacheSt StoreLog) :
    (∀ p ∈ ((makeRoom logStore st).2).backing,
        p ∈ st.backing ∨ p.2.initializing = false)
    ∧ (∀ e ∈ st.entries, e.rawData.initializing = true →
        e ∈ ((makeRoom logStore st).2).entries)
    ∧ (∀ (rem : Nat) (es : List InnerEntry) (tail : InnerEntry),
        es.getLast? = some tail → tail.rawData.initializing = true →
        evictScan (rem + 1) es = evictScan rem (tail :: es.dropLast))
    ∧ (st.size < st.entries.length →
        (∀ e ∈ st.entries, e.rawData.initializing = true) →
        (makeRoom logStore st).1 = .error "cache overflowed with objects being initialized") := by
  refine ⟨?_, ?_, ?_, ?_⟩
  · intro p hp
    unfold makeRoom at hp
    rcases makeRoomGo_backing_or st.entries.length st p hp with h | ⟨h, _⟩
    · exact Or.inl h
    · exact Or.inr h
  · intro e he hinit
    unfold makeRoom
    exact makeRoomGo_init_mem logStore st.entries.length st e he hinit
  · intro rem es tail hl hinit
    conv =>
      lhs
      unfold evictScan
    rw [hl]
    simp [hinit]
  · intro hover hall
    exact makeRoom_allinit_error logStore st hover hall

/-- Witness for C1 at a concrete cache: size 1, two resident entries both
marked initializing, so `makeRoom` throws the overflow error. -/
theorem c1_witness :
    (makeRoom logStore
      { size := 1,
        entries := [{ instanceKey := "a", rawData := { initializing := true, props := [] } },
                    { instanceKey := "b", rawData := { initializing := true, props := [] } }],
        backing := [] }).1 = .error "cache overflowed with objects being initialized" :=
  (c1_makeRoom_protects_initializing _).2.2.2 (by decide) (by decide)

/-- C2 (amended): for every sequence of cache operations starting from a
fresh cache, after every operation completes the live table holds at most
`size + 1` entries — not `size`: `remember` (and `lookup` on a miss) makes
room down to `size` first and then inserts, so a completed insertion can
leave `size + 1` resident entries even with nothing initializing.  (When
eviction is blocked because every entry within the refresh budget is
initializing, `makeRoom` throws instead of returning, so no completed
operation leaves more than `size + 1` entries.) -/
theorem c2_bounded_residency {σ : Type} (fetchF : String → σ → Except String RawData)
    (storeF : String → RawData → σ → σ) (size : Nat) (backing : σ) (ops : List CacheOp)
    (hok : (runOps fetchF storeF (initCache size backing) ops).1 = .ok ()) :
    ((runOps fetchF storeF (initCache size backing) ops).2).entries.length ≤ size + 1 := by
  have h := runOps_inv fetchF storeF ops (initCache size backing)
    (by simp [initCache]) hok
  have h2 : ((runOps fetchF storeF (initCache size backing) ops).2).size = size := h.2
  have h1 := h.1
  rw [h2] at h1
  exact h1

/-- Counterexample to C2 as stated: with `size = 1`, two cache misses leave
two resident entries, neither of them initializing, so
`|live_table| ≤ size` fails and the initializing carve-out does not apply. -/
theorem c2_counterexample :
    (runOps (fun _ _ => Except.ok { initializing := false, props := [] }) logStore
        (initCache 1 ([] : StoreLog)) [CacheOp.lookupOp "a", CacheOp.lookupOp "b"]).1 = .ok ()
    ∧ ((runOps (fun _ _ => Except.ok { initializing := false, props := [] }) logStore
        (initCache 1 ([] : StoreLog)) [CacheOp.lookupOp "a", CacheOp.lookupOp "b"]).2).entries.length = 2
    ∧ ¬ (((runOps (fun _ _ => Except.ok { initializing := false, props := [] }) logStore
        (initCache 1 ([] : StoreLog)) [CacheOp.lookupOp "a", CacheOp.lookupOp "b"]).2).entries.length ≤ 1
      ∨ ∀ e ∈ ((runOps (fun _ _ => Except.ok { initializing := false, props := [] }) logStore
        (initCache 1 ([] : StoreLog)) [CacheOp.lookupOp "a", CacheOp.lookupOp "b"]).2).entries,
          e.rawData.initializing = true) := by
  decide

/-- Witness for the amended C2 at the counterexample's inputs: the bound
`size + 1` does hold there. -/
theorem c2_witness :
    ((runOps (fun _ _ => Except.ok { initializing := false, props := [] }) logStore
        (initCache 1 ([] : StoreLog)) [CacheOp.lookupOp "a", CacheOp.lookupOp "b"]).2).entries.length ≤ 1 + 1 :=
  c2_bounded_residency _ logStore 1 [] [CacheOp.lookupOp "a", CacheOp.lookupOp "b"] (by decide)

/-- C3: when `lookup(k)` returns, the returned entry is at the head of the
LRU list and bears the key `k`; a live-table hit returns the existing entry
with the list refreshed, and a miss synthesizes
`{ instanceKey := k, rawData := fetch k }` and inserts it via `remember`. -/
theorem c3_lookup_head {σ : Type} (fetchF : String → σ → Except String RawData)
    (storeF : String → RawData → σ → σ) (st : CacheSt σ) (k : String)
    (inner : InnerEntry) (st' : CacheSt σ)
    (h : cacheLookup fetchF storeF st k = (.ok inner, st')) :
    st'.entries.head? = some inner
    ∧ inner.instanceKey = k
    ∧ (∀ e, st.entries.find? (fun x => x.instanceKey == k) = some e →
        inner = e ∧ st' = { st with entries := cacheRefresh k st.entries })
    ∧ (st.entries.find? (fun x => x.instanceKey == k) = none →
        fetchF k st.backing = .ok inner.rawData ∧
          cacheRemember storeF st inner = (.ok (), st')) := by
  unfold cacheLookup at h
  cases hf : st.entries.find? (fun x => x.instanceKey == k) with
  | some e =>
    rw [hf] at h
    dsimp only at h
    have hinner : inner = e := by
      have := congrArg Prod.fst h
      dsimp only at this
      cases this
      rfl
    have hst : st' = { st with entries := cacheRefresh k st.entries } := by
      have := congrArg Prod.snd h
      dsimp only at this
      rw [← this]
    refine ⟨?_, ?_, ?_, ?_⟩
    · rw [hst, hinner]
      exact cacheRefresh_head k st.entries e hf
    · rw [hinner]
      exact find?_key k st.entries e hf
    · intro e' he'
      cases he'
      exact ⟨hinner, hst⟩
    · intro hnone
      cases hnone
  | none =>
    rw [hf] at h
    dsimp only at h
    cases hfe : fetchF k st.backing with
    | error e =>
      rw [hfe] at h
      dsimp only at h
      have := congrArg Prod.fst h
      dsimp only at this
      cases this
    | ok rd =>
      rw [hfe] at h
      dsimp only at h
      cases hrem : cacheRemember storeF st { instanceKey := k, rawData := rd } with
      | mk r st1 =>
        rw [hrem] at h
        cases r with
        | error e =>
          dsimp only at h
          have := congrArg Prod.fst h
          dsimp only at this
          cases this
        | ok u =>
          dsimp only at h
          have hinner : inner = { instanceKey := k, rawData := rd } := by
            have := congrArg Prod.fst h
            dsimp only at this
            cases this
            rfl
          have hst : st' = st1 := by
            have := congrArg Prod.snd h
            dsimp only at this
            rw [← this]
          have hany : (st.entries.any (fun e => e.instanceKey == k)) = false := by
            rw [List.any_eq_false]
            intro x hx
            have := List.find?_eq_none.mp hf x hx
            simpa using this
          have hhead : st1.entries.head? = some ({ instanceKey := k, rawData := rd } : InnerEntry) := by
            unfold cacheRemember at hrem
            rw [hany] at hrem
            simp only [Bool.false_eq_true, if_false] at hrem
            cases hmk : makeRoom storeF st with
            | mk r2 st2 =>
              rw [hmk] at hrem
              cases r2 with
              | error e2 => cases hrem
              | ok u2 =>
                dsimp only at hrem
                have := congrArg Prod.snd hrem
                dsimp only at this
                rw [← this]
                rfl
          subst hinner
          subst hst
          refine ⟨?_, ?_, ?_, ?_⟩
          · exact hhead
          · rfl
          · intro e' he'
            cases he'
          · intro _
            exact ⟨rfl, hrem⟩

/-- Witness for C3: a live-table hit on a one-entry cache leaves that entry
at the head. -/
theorem c3_witness :
    cacheLookup (fun _ _ => Except.ok { initializing := false, props := [] }) logStore
        { size := 2,
          entries := [{ instanceKey := "a", rawData := { initializing := false, props := [("p", "1")] } }],
          backing := ([] : StoreLog) } "a"
      = (.ok { instanceKey := "a", rawData := { initializing := false, props := [("p", "1")] } },
         { size := 2,
           entries := [{ instanceKey := "a", rawData := { initializing := false, props := [("p", "1")] } }],
           backing := ([] : StoreLog) })
    ∧ ({ size := 2,
         entries := [{ instanceKey := "a", rawData := { initializing := false, props := [("p", "1")] } }],
         backing := ([] : StoreLog) } : CacheSt StoreLog).entries.head?
        = some { instanceKey := "a", rawData := { initializing := false, props := [("p", "1")] } } :=
  ⟨by decide,
   (c3_lookup_head (fun _ _ => Except.ok { initializing := false, props := [] }) logStore
      { size := 2,
        entries := [{ instanceKey := "a", rawData := { initializing := false, props := [("p", "1")] } }],
        backing := ([] : StoreLog) } "a"
      { instanceKey := "a", rawData := { initializing := false, props := [("p", "1")] } }
      { size := 2,
        entries := [{ instanceKey := "a", rawData := { initializing := false, props := [("p", "1")] } }],
        backing := ([] : StoreLog) } (by decide)).1⟩

/-- C4: assuming no resident entry is marked initializing, `flush()` returns
normally, the live table is afterwards empty (every entry detached), every
previously resident entry has been written to storage via
`store(instanceKey, rawData)`, and the size bound is restored. -/
theorem c4_flush_durability (st : CacheSt StoreLog)
    (hnoinit : ∀ e ∈ st.entries, e.rawData.initializing = false) :
    (cacheFlush logStore st).1 = .ok ()
    ∧ ((cacheFlush logStore st).2).entries = []
    ∧ ((cacheFlush logStore st).2).size = st.size
    ∧ ∀ e ∈ st.entries, (e.instanceKey, e.rawData) ∈ ((cacheFlush logStore st).2).backing := by
  have hok : (cacheFlush logStore st).1 = .ok () := by
    unfold cacheFlush
    cases hmk : makeRoom logStore { st with size := 0 } with
    | mk r st1 =>
      have hgo := makeRoomGo_noinit_ok logStore
        ({ st with size := 0 } : CacheSt StoreLog).entries.length { st with size := 0 } hnoinit
      unfold makeRoom at hmk
      rw [hmk] at hgo
      cases r with
      | error e => cases hgo
      | ok u => dsimp only
  have hflush := cacheFlush_ok logStore st hok
  refine ⟨hok, hflush.1, hflush.2, ?_⟩
  intro e he
  unfold cacheFlush at hflush ⊢
  cases hmk : makeRoom logStore { st with size := 0 } with
  | mk r st1 =>
    rw [hmk] at hflush
    cases r with
    | error err =>
      dsimp only at hflush
      rw [hflush.2] at hflush
      exact absurd hflush.2 (by intro hc; exact absurd hok (by unfold cacheFlush; rw [hmk]; simp))
    | ok u =>
      dsimp only at hflush ⊢
      have hstored := makeRoomGo_stored
        ({ st with size := 0 } : CacheSt StoreLog).entries.length { st with size := 0 } e he
      unfold makeRoom at hmk
      rw [hmk] at hstored
      rcases hstored with hleft | hright
      · rw [hflush.1] at hleft
        cases hleft
      · exact hright

/-- Witness for C4 at a concrete two-entry cache with nothing initializing. -/
theorem c4_witness :
    (cacheFlush logStore
        { size := 3,
          entries := [{ instanceKey := "a", rawData := { initializing := false, props := [("p", "1")] } },
                      { instanceKey := "b", rawData := { initializing := false, props := [] } }],
          backing := [] }).1 = .ok ()
    ∧ ((cacheFlush logStore
        { size := 3,
          entries := [{ instanceKey := "a", rawData := { initializing := false, props := [("p", "1")] } },
                      { instanceKey := "b", rawData := { initializing := false, props := [] } }],
          backing := [] }).2).entries = [] := by
  have h := c4_flush_durability
    { size := 3,
      entries := [{ instanceKey := "a", rawData := { initializing := false, props := [("p", "1")] } },
                  { instanceKey := "b", rawData := { initializing := false, props := [] } }],
      backing := [] } (by decide)
  exact ⟨h.1, h.2.1⟩

/-- C5: the property setter serializes the value before touching any state,
so when serialization throws, the inner self's raw data for that property is
unchanged — the setter returns the error with the cache state untouched —
and a subsequent getter still returns the prior value. -/
theorem c5_setter_serializes_first {σ : Type} (serialize : String → Except String String)
    (unserialize : String → String) (fetchF : String → σ → Except String RawData)
    (storeF : String → RawData → σ → σ) (inner : InnerSelf) (st : CacheSt σ)
    (prop value : String) (rd : RawData) (prior err : String)
    (hrd : inner.rawData = some rd)
    (hprior : alookup prop rd.props = some prior)
    (hser : serialize value = .error err) :
    wrapDataSet serialize fetchF storeF inner st prop value = (.error err, st)
    ∧ wrapDataGet unserialize fetchF storeF inner st prop
        = (.ok (some (unserialize prior)), st) := by
  constructor
  · unfold wrapDataSet
    rw [hser]
  · unfold wrapDataGet ensureState
    rw [hrd]
    dsimp only
    rw [hprior]
    rfl

/-- Witness for C5: a setter whose value fails to serialize leaves the state
alone, and the getter still reads the prior value. -/
theorem c5_witness :
    wrapDataSet (fun _ => Except.error "nope") (fun _ _ => Except.ok { initializing := false, props := [] })
        logStore { instanceKey := "a", rawData := some { initializing := false, props := [("p", "old")] } }
        (initCache 1 ([] : StoreLog)) "p" "v"
      = (.error "nope", initCache 1 ([] : StoreLog))
    ∧ wrapDataGet (fun s => s) (fun _ _ => Except.ok { initializing := false, props := [] })
        logStore { instanceKey := "a", rawData := some { initializing := false, props := [("p", "old")] } }
        (initCache 1 ([] : StoreLog)) "p"
      = (.ok (some "old"), initCache 1 ([] : StoreLog)) :=
  c5_setter_serializes_first (fun _ => Except.error "nope") (fun s => s)
    (fun _ _ => Except.ok { initializing := false, props := [] }) logStore
    { instanceKey := "a", rawData := some { initializing := false, props := [("p", "old")] } }
    (initCache 1 ([] : StoreLog)) "p" "v" { initializing := false, props := [("p", "old")] }
    "old" "nope" rfl rfl rfl

/-- C7 (amended): only the reanimation path freezes the representative: a
representative produced by `makeRepresentative` with `initializing = false`
is hardened (and its `initialize` method removed), whereas the
representative returned by `makeNewInstance` keeps whatever frozen-ness the
user's instance maker gave it — the source deletes its `initialize` method
but never hardens it (only the state object passed through `wrapData` is
hardened). -/
theorem c7_freeze_on_reanimation_only {σ : Type} (storeF : String → RawData → σ → σ)
    (serialize : String → Except String String) (im : Representative)
    (inner : InnerEntry) (initProps : List (String × String)) (kid : String) (iid : Nat)
    (st st2 : CacheSt σ) :
    (∀ rep st', makeRepresentative storeF im inner false st = (.ok rep, st') →
        rep.frozen = true ∧ rep.hasInitMethod = false)
    ∧ (∀ rep2 st2' con,
        makeNewInstance serialize storeF im initProps kid iid st2 = (.ok rep2, st2', con) →
        rep2.frozen = im.frozen ∧ rep2.hasInitMethod = false) := by
  constructor
  · intro rep st' h
    unfold makeRepresentative at h
    simp only [Bool.false_eq_true, if_false] at h
    cases hrem : cacheRemember storeF st inner with
    | mk r st1 =>
      rw [hrem] at h
      cases r with
      | error e => dsimp only at h; cases h
      | ok u =>
        dsimp only at h
        have := congrArg Prod.fst h
        dsimp only at this
        cases this
        exact ⟨rfl, rfl⟩
  · intro rep2 st2' con h
    unfold makeNewInstance at h
    dsimp only at h
    cases hmr : makeRepresentative storeF im
        { instanceKey := mkInstanceKey kid iid,
          rawData := { initializing := true, props := [] } } true st2 with
    | mk r stA =>
      rw [hmr] at h
      cases r with
      | error e => dsimp only at h; cases h
      | ok rep0 =>
        dsimp only at h
        have hrep0 : rep0 = im := by
          unfold makeRepresentative at hmr
          simp only [if_true] at hmr
          cases hrem : cacheRemember storeF st2
              { instanceKey := mkInstanceKey kid iid,
                rawData := { initializing := true, props := [] } } with
          | mk r2 stB =>
            rw [hrem] at hmr
            cases r2 with
            | error e2 => dsimp only at hmr; cases hmr
            | ok u2 =>
              dsimp only at hmr
              have := congrArg Prod.fst hmr
              dsimp only at this
              cases this
              rfl
        cases hsp : serializeProps serialize (if rep0.hasInitMethod then initProps else []) with
        | error pe =>
          rw [hsp] at h
          dsimp only at h
          cases h
        | ok ground =>
          rw [hsp] at h
          dsimp only at h
          have := congrArg (fun q => q.1) h
          dsimp only at this
          cases this
          exact ⟨by rw [hrep0], rfl⟩

/-- Counterexample to C7 as stated: `makeNewInstance` returns the instance
maker's representative without hardening it, so with an unfrozen instance
maker the returned representative is not frozen. -/
theorem c7_counterexample :
    (makeNewInstance (fun v => Except.ok v) logStore
        { hasInitMethod := true, frozen := false } [("count", "7")] "1" 1
        (initCache 10 ([] : StoreLog))).1
      = .ok { hasInitMethod := false, frozen := false }
    ∧ ({ hasInitMethod := false, frozen := false } : Representative).frozen = false := by
  decide

/-- Witness for the amended C7: reanimating on a cache that already holds the
entry yields a frozen representative with no `initialize` method. -/
theorem c7_witness :
    ({ hasInitMethod := false, frozen := true } : Representative).frozen = true
    ∧ ({ hasInitMethod := false, frozen := true } : Representative).hasInitMethod = false :=
  (c7_freeze_on_reanimation_only logStore (fun v => Except.ok v)
      { hasInitMethod := true, frozen := false }
      { instanceKey := "a", rawData := { initializing := false, props := [] } } [] "1" 1
      { size := 1,
        entries := [{ instanceKey := "a", rawData := { initializing := false, props := [] } }],
        backing := ([] : StoreLog) }
      (initCache 1 ([] : StoreLog))).1
    { hasInitMethod := false, frozen := true }
    { size := 1,
      entries := [{ instanceKey := "a", rawData := { initializing := false, props := [] } }],
      backing := ([] : StoreLog) }
    (by decide)

/-- C8: when `codec.serialize` fails on an own property of the initial data
during `make_new_instance`, the codec's error propagates to the caller, the
console log names the offending property
(`state property <prop> is not serializable`), and no store event for the
new instance's key has been emitted — eviction work triggered by inserting
the new inner self only ever stores previously resident entries, and the new
entry itself is protected by its initializing mark. -/
theorem c8_serialize_failure_leaves_no_entry (serialize : String → Except String String)
    (im : Representative) (initProps : List (String × String)) (kid : String) (iid : Nat)
    (st : CacheSt StoreLog) (prop err : String)
    (hnoinit : ∀ e ∈ st.entries, e.rawData.initializing = false)
    (hfresh : ∀ e ∈ st.entries, ¬ e.instanceKey = mkInstanceKey kid iid)
    (hpre : ∀ p ∈ st.backing, ¬ p.1 = mkInstanceKey kid iid)
    (hhas : im.hasInitMethod = true)
    (hser : serializeProps serialize initProps = .error (prop, err)) :
    (makeNewInstance serialize logStore im initProps kid iid st).1 = .error err
    ∧ (makeNewInstance serialize logStore im initProps kid iid st).2.2
        = ["state property " ++ prop ++ " is not serializable"]
    ∧ ∀ p ∈ ((makeNewInstance serialize logStore im initProps kid iid st).2.1).backing,
        ¬ p.1 = mkInstanceKey kid iid := by
  have hany : (st.entries.any fun e => e.instanceKey == mkInstanceKey kid iid) = false := by
    rw [List.any_eq_false]
    intro x hx
    simpa using hfresh x hx
  cases hmk : makeRoom logStore st with
  | mk r st1 =>
    have hok := makeRoomGo_noinit_ok logStore st.entries.length st hnoinit
    have hmk' : makeRoomGo logStore st.entries.length st = (r, st1) := hmk
    rw [hmk'] at hok
    cases r with
    | error e => cases hok
    | ok u =>
      have hrem : cacheRemember logStore st
          { instanceKey := mkInstanceKey kid iid,
            rawData := { initializing := true, props := [] } }
          = (.ok (), { st1 with entries :=
              { instanceKey := mkInstanceKey kid iid,
                rawData := { initializing := true, props := [] } } :: st1.entries }) := by
        unfold cacheRemember
        rw [hany]
        simp only [Bool.false_eq_true, if_false]
        unfold makeRoom
        rw [hmk']
      have hmr : makeRepresentative logStore im
          { instanceKey := mkInstanceKey kid iid,
            rawData := { initializing := true, props := [] } } true st
          = (.ok im, { st1 with entries :=
              { instanceKey := mkInstanceKey kid iid,
                rawData := { initializing := true, props := [] } } :: st1.entries }) := by
        unfold makeRepresentative
        simp only [if_true]
        rw [hrem]
      have hmni : makeNewInstance serialize logStore im initProps kid iid st
          = (.error err,
             { st1 with entries :=
                { instanceKey := mkInstanceKey kid iid,
                  rawData := { initializing := true, props := [] } } :: st1.entries },
             ["state property " ++ prop ++ " is not serializable"]) := by
        unfold makeNewInstance
        dsimp only
        rw [hmr]
        dsimp only
        rw [hhas]
        simp only [if_true]
        rw [hser]
      rw [hmni]
      refine ⟨rfl, rfl, ?_⟩
      intro p hp
      dsimp only at hp
      have hor := makeRoomGo_backing_or st.entries.length st p (by rw [hmk']; exact hp)
      rcases hor with hback | ⟨_, hkey⟩
      · exact hpre p hback
      · rcases List.mem_map.mp hkey with ⟨x, hx, hxk⟩
        rw [← hxk]
        exact hfresh x hx

/-- C9: `makeVirtualObjectRepresentative(vref)` throws
`unknown kind <id>` exactly when the id parsed from the vref is not a
registered kind, and otherwise returns the registered reanimator applied to
the vref. -/
theorem c9_unknown_kind {α : Type} (parse : String → SlotInfo)
    (kindTable : List (String × (String → α))) (vref : String) :
    (makeVirtualObjectRepresentative parse kindTable vref
        = .error ("unknown kind " ++ toString (parse vref).id)
      ↔ alookup (toString (parse vref).id) kindTable = none)
    ∧ ∀ f, alookup (toString (parse vref).id) kindTable = some f →
        makeVirtualObjectRepresentative parse kindTable vref = .ok (f vref) := by
  unfold makeVirtualObjectRepresentative
  dsimp only
  cases hl : alookup (toString (parse vref).id) kindTable with
  | some f =>
    constructor
    · constructor
      · intro h
        cases h
      · intro h
        cases h
    · intro f' hf'
      cases hf'
      rfl
  | none =>
    constructor
    · constructor
      · intro _
        rfl
      · intro _
        rfl
    · intro f' hf'
      cases hf'

/-- Witness for C9: a registered kind reanimates, an unregistered one
throws. -/
theorem c9_witness :
    makeVirtualObjectRepresentative
        (fun _ => { id := 3, type := "object", virtual := true })
        [("3", fun _ => 7)] "o+3/1" = .ok 7
    ∧ makeVirtualObjectRepresentative
        (fun _ => { id := 9, type := "object", virtual := true })
        ([] : List (String × (String → Nat))) "o+9/1" = .error "unknown kind 9" := by
  constructor
  · exact (c9_unknown_kind (fun _ => ({ id := 3, type := "object", virtual := true } : SlotInfo))
      [("3", fun _ => 7)] "o+3/1").2 (fun _ => 7) rfl
  · exact (c9_unknown_kind (fun _ => ({ id := 9, type := "object", virtual := true } : SlotInfo))
      ([] : List (String × (String → Nat))) "o+9/1").1.mpr rfl

/-- C10: `fetch` applies `JSON.parse` to the raw vatstore read, so for an
instance key that is neither resident nor present in the vatstore, the parse
of the coerced `undefined` fails and `lookup` (and hence `reanimate` and a
`makeVirtualObjectRepresentative` call whose kind is registered) throws
rather than producing a representative with empty state. -/
theorem c10_fetch_absent_fails (parseJson : String → Except String RawData)
    (stringifyRaw : RawData → String) (im : Representative)
    (st : CacheSt (List (String × Option String))) (vref : String) (perr : String)
    (hparse : parseJson "undefined" = .error perr)
    (habs : vatstoreGet st.backing vref = none)
    (hmem : ∀ e ∈ st.entries, ¬ e.instanceKey = vref) :
    vomFetch parseJson vref st.backing = .error perr
    ∧ (cacheLookup (vomFetch parseJson) (vomStore stringifyRaw) st vref).1 = .error perr
    ∧ (reanimate (vomFetch parseJson) (vomStore stringifyRaw) im st vref).1 = .error perr
    ∧ ∀ (parse : String → SlotInfo) (kid : String),
        toString (parse vref).id = kid →
        makeVirtualObjectRepresentative parse
            [(kid, fun v => reanimate (vomFetch parseJson) (vomStore stringifyRaw) im st v)] vref
          = .ok (reanimate (vomFetch parseJson) (vomStore stringifyRaw) im st vref) := by
  have hfetch : vomFetch parseJson vref st.backing = .error perr := by
    unfold vomFetch
    rw [habs]
    exact hparse
  have hf : st.entries.find? (fun e => e.instanceKey == vref) = none :=
    List.find?_eq_none.mpr (fun x hx => by simpa using hmem x hx)
  have hcl : cacheLookup (vomFetch parseJson) (vomStore stringifyRaw) st vref
      = (.error perr, st) := by
    unfold cacheLookup
    rw [hf]
    dsimp only
    rw [hfetch]
  refine ⟨hfetch, by rw [hcl], ?_, ?_⟩
  · unfold reanimate
    rw [hcl]
  · intro parse kid hkid
    unfold makeVirtualObjectRepresentative
    dsimp only
    rw [hkid]
    simp [alookup]

/-- Witness for C10 at an empty cache and vatstore. -/
theorem c10_witness :
    (cacheLookup (vomFetch (fun s => Except.error ("bad json: " ++ s)))
        (vomStore (fun _ => "x")) (initCache 1 ([] : List (String × Option String)))
        "o+3/1").1 = .error "bad json: undefined" :=
  (c10_fetch_absent_fails (fun s => Except.error ("bad json: " ++ s)) (fun _ => "x")
    { hasInitMethod := false, frozen := false }
    (initCache 1 ([] : List (String × Option String))) "o+3/1" "bad json: undefined"
    (by decide) (by decide) (by decide)).2.1

/-- Key removed by the weak map's `delete` is no longer found. -/
theorem alookup_filter_self (key : Nat) (l : List (Nat × String)) :
    alookup key (l.filter (fun p => !(p.1 == key))) = none := by
  induction l with
  | nil => rfl
  | cons p rest ih =>
    cases hk : p.1 == key with
    | true => simp [List.filter_cons, hk, ih]
    | false => simp [List.filter_cons, hk, alookup, ih]



/-- C6: for every weak store and key, virtual or not: `init` fails
`already registered` (tagged with the store's `keyName`) when the key is
already bound; otherwise `init` succeeds, after which `get` returns the
value (through the codec/JSON roundtrip) and `has` is true; `get`, `set` and
`delete` fail `not found` (tagged with `keyName`) when the key is absent;
and after a successful `delete`, `has` is false. -/
theorem c6_weak_store_semantics (c : WsCtx) (ser unser jstr jparse : String → String)
    (st : WeakStoreSt) (key : Nat) (v : String)
    (h1 : jparse (jstr (ser v)) = ser v) (h2 : unser (ser v) = v)
    (h3 : ¬ jstr (ser v) = "") :
    (wsHas c st key = true →
      wsInit c ser jstr st key v = .error (alreadyRegisteredMsg c.keyName key))
    ∧ (wsHas c st key = false → (wsInit c ser jstr st key v).isOk = true)
    ∧ (wsHas c st key = false → ∀ st', wsInit c ser jstr st key v = .ok st' →
        wsGet c unser jparse st' key = .ok v ∧ wsHas c st' key = true)
    ∧ (wsHas c st key = false →
        wsGet c unser jparse st key = .error (notFoundMsg c.keyName key)
        ∧ wsSet c ser jstr st key v = .error (notFoundMsg c.keyName key)
        ∧ wsDelete c st key = .error (notFoundMsg c.keyName key))
    ∧ (wsHas c st key = true → ∀ st', wsDelete c st key = .ok st' →
        wsHas c st' key = false) := by
  have hjeq : (jstr (ser v) == "") = false := by
    rw [beq_eq_false_iff_ne]
    exact h3
  cases hv : virtualObjectKey c key with
  | some vkey =>
    refine ⟨?_, ?_, ?_, ?_, ?_⟩
    · intro hhas
      unfold wsHas at hhas
      rw [hv] at hhas
      dsimp only at hhas
      unfold wsInit
      rw [hv]
      dsimp only
      rw [hhas]
      rfl
    · intro hhas
      unfold wsHas at hhas
      rw [hv] at hhas
      dsimp only at hhas
      unfold wsInit
      rw [hv]
      dsimp only
      rw [hhas]
      rfl
    · intro hhas st' hinit
      unfold wsHas at hhas
      rw [hv] at hhas
      dsimp only at hhas
      unfold wsInit at hinit
      rw [hv] at hinit
      dsimp only at hinit
      rw [hhas] at hinit
      simp only [Bool.false_eq_true, if_false] at hinit
      cases hinit
      constructor
      · unfold wsGet
        rw [hv]
        dsimp only
        simp [vatstoreGet, vatstoreSet, alookup, Option.join, hjeq, h1, h2]
      · unfold wsHas
        rw [hv]
        dsimp only
        simp [vatstoreGet, vatstoreSet, alookup, Option.join, jsTruthy, hjeq]
    · intro hhas
      unfold wsHas at hhas
      rw [hv] at hhas
      dsimp only at hhas
      refine ⟨?_, ?_, ?_⟩
      · unfold wsGet
        rw [hv]
        dsimp only
        cases hvg : vatstoreGet st.vat vkey with
        | none => rfl
        | some s =>
          rw [hvg] at hhas
          unfold jsTruthy at hhas
          dsimp only at hhas
          dsimp only
          cases hs : s == "" with
          | true => rfl
          | false => rw [hs] at hhas; simp at hhas
      · unfold wsSet
        rw [hv]
        dsimp only
        rw [hhas]
        rfl
      · unfold wsDelete
        rw [hv]
        dsimp only
        rw [hhas]
        rfl
    · intro hhas st' hdel
      unfold wsHas at hhas
      rw [hv] at hhas
      dsimp only at hhas
      unfold wsDelete at hdel
      rw [hv] at hdel
      dsimp only at hdel
      rw [hhas] at hdel
      simp only [if_true] at hdel
      cases hdel
      unfold wsHas
      rw [hv]
      dsimp only
      simp [vatstoreGet, vatstoreSet, alookup, Option.join, jsTruthy]
  | none =>
    refine ⟨?_, ?_, ?_, ?_, ?_⟩
    · intro hhas
      unfold wsHas at hhas
      rw [hv] at hhas
      dsimp only at hhas
      unfold wsInit
      rw [hv]
      dsimp only
      rw [hhas]
      rfl
    · intro hhas
      unfold wsHas at hhas
      rw [hv] at hhas
      dsimp only at hhas
      unfold wsInit
      rw [hv]
      dsimp only
      rw [hhas]
      rfl
    · intro hhas st' hinit
      unfold wsHas at hhas
      rw [hv] at hhas
      dsimp only at hhas
      unfold wsInit at hinit
      rw [hv] at hinit
      dsimp only at hinit
      rw [hhas] at hinit
      simp only [Bool.false_eq_true, if_false] at hinit
      cases hinit
      constructor
      · unfold wsGet
        rw [hv]
        dsimp only
        simp [alookup]
      · unfold wsHas
        rw [hv]
        dsimp only
        simp [alookup]
    · intro hhas
      unfold wsHas at hhas
      rw [hv] at hhas
      dsimp only at hhas
      have halk : alookup key st.backingMap = none := by
        cases halk : alookup key st.backingMap with
        | none => rfl
        | some w => rw [halk] at hhas; cases hhas
      refine ⟨?_, ?_, ?_⟩
      · unfold wsGet
        rw [hv]
        dsimp only
        rw [halk]
      · unfold wsSet
        rw [hv]
        dsimp only
        rw [hhas]
        rfl
      · unfold wsDelete
        rw [hv]
        dsimp only
        rw [hhas]
        rfl
    · intro hhas st' hdel
      unfold wsHas at hhas
      rw [hv] at hhas
      dsimp only at hhas
      unfold wsDelete at hdel
      rw [hv] at hdel
      dsimp only at hdel
      rw [hhas] at hdel
      simp only [if_true] at hdel
      cases hdel
      unfold wsHas
      rw [hv]
      dsimp only
      rw [alookup_filter_self]
      rfl

/-- Witness for C6 with a non-virtual key and identity collaborators. -/
theorem c6_witness :
    wsGet { valToSlot := fun _ => none, parse := fun _ => { id := 0, type := "object", virtual := false },
            storeID := 1, keyName := "key" }
        (fun s => s) (fun s => s)
        { backingMap := [(0, "x")], vat := [] } 0 = .ok "x"
    ∧ wsHas { valToSlot := fun _ => none, parse := fun _ => { id := 0, type := "object", virtual := false },
              storeID := 1, keyName := "key" }
        { backingMap := [(0, "x")], vat := [] } 0 = true := by
  have h := (c6_weak_store_semantics
    { valToSlot := fun _ => none, parse := fun _ => { id := 0, type := "object", virtual := false },
      storeID := 1, keyName := "key" }
    (fun s => s) (fun s => s) (fun s => s) (fun s => s)
    { backingMap := [], vat := [] } 0 "x" rfl rfl (by decide)).2.2.1
    (by decide) { backingMap := [(0, "x")], vat := [] } (by decide)
  exact h

/-- Witness for C8: a property whose value fails to serialize makes
`makeNewInstance` rethrow the codec error, log the property name, and leave
no store event for the new instance. -/
theorem c8_witness :
    (makeNewInstance (fun val => if val == "bad" then Except.error "boom" else Except.ok val)
        logStore { hasInitMethod := true, frozen := false } [("p", "bad")] "1" 1
        (initCache 2 ([] : StoreLog))).1 = .error "boom"
    ∧ (makeNewInstance (fun val => if val == "bad" then Except.error "boom" else Except.ok val)
        logStore { hasInitMethod := true, frozen := false } [("p", "bad")] "1" 1
        (initCache 2 ([] : StoreLog))).2.2 = ["state property p is not serializable"] := by
  have h := c8_serialize_failure_leaves_no_entry
    (fun val => if val == "bad" then Except.error "boom" else Except.ok val)
    { hasInitMethod := true, frozen := false } [("p", "bad")] "1" 1
    (initCache 2 ([] : StoreLog)) "p" "boom"
    (by decide) (by decide) (by decide) (by decide) (by decide)
  exact ⟨h.1, h.2.1⟩
